import Mathlib

/-!
Verification of the client-side data reconciliation and presentation engine
of a static research-log site.  The JavaScript sources are shallowly embedded
as Lean functions over `List Char` / `String`, with JS objects modelled as
structures.  Conventions used throughout:

* optional JS string fields are modelled as `String`, with `""` playing the
  role of `undefined`/missing (JS truthiness does not distinguish them at any
  of the embedded guard sites);
* `String.toLowerCase` / `toUpperCase` are modelled on the ASCII range, which
  is the range the source data and every character-class regex in the code
  uses;
* regex passes such as `replace(/\s+/g, '-')` are embedded as structural
  functions on `List Char` (`collapseRuns`, `replaceChar`, ...);
* DOM effects (container contents, status line, hidden flags) are modelled as
  explicit state fields; `console.warn` logging is not modelled.
-/

/-- ASCII model of JS `toLowerCase` on one character. -/
def jsLowerChar (c : Char) : Char :=
  if 65 ≤ c.toNat ∧ c.toNat ≤ 90 then Char.ofNat (c.toNat + 32) else c

/-- ASCII model of JS `toUpperCase` on one character. -/
def jsUpperChar (c : Char) : Char :=
  if 97 ≤ c.toNat ∧ c.toNat ≤ 122 then Char.ofNat (c.toNat - 32) else c

/-- JS `toLowerCase` on a string (ASCII model). -/
def jsLower (s : String) : String :=
  String.mk (s.data.map jsLowerChar)

/-- Characters matched by the regex class `\s` (ASCII part). -/
def isWsChar (c : Char) : Bool :=
  c == ' ' || c == '\t' || c == '\n' || c == '\r' || c == '\x0b' || c == '\x0c'

/-- Characters in `[a-z0-9]`. -/
def isLowerAlnum (c : Char) : Bool :=
  (decide (97 ≤ c.toNat) && decide (c.toNat ≤ 122)) ||
    (decide (48 ≤ c.toNat) && decide (c.toNat ≤ 57))

/-- Characters kept by the regex pass `replace(/[^a-z0-9\s-]/g, '')`. -/
def keepChar (c : Char) : Bool :=
  isLowerAlnum c || isWsChar c || c == '-'

/-- Characters in the regex class `\w`, i.e. `[A-Za-z0-9_]`. -/
def isWordChar (c : Char) : Bool :=
  (decide (65 ≤ c.toNat) && decide (c.toNat ≤ 90)) ||
    (decide (97 ≤ c.toNat) && decide (c.toNat ≤ 122)) ||
    (decide (48 ≤ c.toNat) && decide (c.toNat ≤ 57)) || c == '_'

/-- Characters in the regex class `[_\-]`. -/
def isLabelSep (c : Char) : Bool :=
  c == '_' || c == '-'

/-- Model of a global regex replacement `replace(/X+/g, r)` for a character
class `X`: every maximal run of characters satisfying `p` becomes the single
character `r`. -/
def collapseRuns (p : Char → Bool) (r : Char) : List Char → List Char
  | [] => []
  | [c] => if p c then [r] else [c]
  | c :: d :: rest =>
    if p c then
      (if p d then collapseRuns p r (d :: rest) else r :: collapseRuns p r (d :: rest))
    else c :: collapseRuns p r (d :: rest)

/-- Model of JS `String.trim()` (ASCII whitespace). -/
def trimWs (l : List Char) : List Char :=
  ((l.dropWhile isWsChar).reverse.dropWhile isWsChar).reverse

/-- One step of the regex `replace(/^-|-$/g, '')`: drop a single leading dash. -/
def dropLeadDash : List Char → List Char
  | [] => []
  | c :: t => if c = '-' then t else c :: t

/-- Model of `replace(/^-|-$/g, '')`: drop one leading and one trailing dash. -/
def stripEdgeDash (l : List Char) : List Char :=
  (dropLeadDash (dropLeadDash l).reverse).reverse

/-- The shared tail of both `slugify` variants: remove characters outside
`[a-z0-9\s-]`, trim, turn whitespace runs into dashes, collapse dash runs,
strip edge dashes. -/
def slugCore (l : List Char) : List Char :=
  stripEdgeDash (collapseRuns (fun c => c == '-') '-'
    (collapseRuns isWsChar '-' (trimWs (List.filter keepChar l))))

/-- `slugify` from the post-page script: lower-case, underscore runs to
spaces, then the shared tail. -/
def slugifyList (l : List Char) : List Char :=
  slugCore (collapseRuns (fun c => c == '_') ' ' (l.map jsLowerChar))

/-- `slugify` from the post-page script (string level). -/
def slugify (s : String) : String :=
  String.mk (slugifyList s.data)

/-- `slugify` from the tag-archive script: identical except that it has no
underscore pass. -/
def slugifyTagArchive (s : String) : String :=
  String.mk (slugCore (s.data.map jsLowerChar))

/-- The `replace(/\b\w/g, upper)` pass of `normalizeLabel`: upper-case every
word character that is not preceded by a word character.  The boolean argument
records whether the previous character was a word character. -/
def titleCaseAux : Bool → List Char → List Char
  | _, [] => []
  | prevWord, c :: rest =>
    (if !prevWord && isWordChar c then jsUpperChar c else c) ::
      titleCaseAux (isWordChar c) rest

/-- `normalizeLabel` from the post-page and tag-archive scripts: trim, turn
runs of underscores/hyphens into spaces, keep an all-uppercase label as is,
otherwise title-case the lower-cased label. -/
def normalizeLabel (s : String) : String :=
  let text := trimWs s.data
  if text = [] then String.mk []
  else
    let text := collapseRuns isLabelSep ' ' text
    let upper := text.map jsUpperChar
    if text = upper then String.mk text
    else String.mk (titleCaseAux false (text.map jsLowerChar))

/-- `normalizeTitle` from the post-page script: lower-case, collapse
whitespace runs to single spaces, trim. -/
def normalizeTitle (s : String) : String :=
  String.mk (trimWs (collapseRuns isWsChar ' ' (s.data.map jsLowerChar)))

/-- Model of one global single-character regex replacement
`replace(/c/g, repl)`. -/
def replaceChar (c : Char) (repl : List Char) : List Char → List Char
  | [] => []
  | d :: rest =>
    if d = c then repl ++ replaceChar c repl rest else d :: replaceChar c repl rest

/-- `escapeHtml` as the source writes it: five sequential global replacements,
ampersand first. -/
def escapeHtmlList (l : List Char) : List Char :=
  replaceChar '\x27' (("&#39;").data)
    (replaceChar '\"' (("&quot;").data)
      (replaceChar '>' (("&gt;").data)
        (replaceChar '<' (("&lt;").data)
          (replaceChar '&' (("&amp;").data) l))))

/-- `escapeHtml` (string level), shared verbatim by all card renderers. -/
def escapeHtml (s : String) : String :=
  String.mk (escapeHtmlList s.data)

/-! ## Data model -/

/-- A reconciled tag: normalized, URL-safe `slug` plus display `label`. -/
structure Tag where
  slug : String
  label : String
deriving DecidableEq

/-- An event record from `events.json` (`fingerprintCluster` models
`fingerprint_fields.cluster`, `""` when the object or the field is absent). -/
structure EventRecord where
  uid : String
  title : String
  cluster : String
  event_type : String
  fingerprintCluster : String
  sources : List String
deriving DecidableEq

/-- A content item from the archive / latest-briefings registries. -/
structure ContentItem where
  slug : String
  title : String
  summary : String
  cluster : String
  as_of : String
  tags : List Tag
  event_uid : String
deriving DecidableEq

/-! ## Tag reconciliation (post-page script) -/

/-- The `seen`-set filter inside `dedupeTags`: keep a tag iff its slug is
non-empty and has not been seen before. -/
def dedupeTagsAux : List String → List Tag → List Tag
  | _, [] => []
  | seen, t :: rest =>
    if t.slug = "" ∨ t.slug ∈ seen then dedupeTagsAux seen rest
    else t :: dedupeTagsAux (t.slug :: seen) rest

/-- `dedupeTags` from the post-page script. -/
def dedupeTags (tags : List Tag) : List Tag :=
  dedupeTagsAux [] tags

/-- The candidate a single `addTag(label, slugHint)` call contributes:
normalize the label, slug the hint (or the normalized label when the hint is
falsy), drop the candidate silently when either comes out empty. -/
def tagCand (label slugHint : String) : List Tag :=
  let labelText := normalizeLabel label
  let slug := slugify (if slugHint = "" then labelText else slugHint)
  if slug = "" ∨ labelText = "" then [] else [⟨slug, labelText⟩]

/-- `addTag` pushes the candidate (if any) onto the accumulator. -/
def addTag (acc : List Tag) (label slugHint : String) : List Tag :=
  acc ++ tagCand label slugHint

/-- `collectTagsFromItem(item, event, domTags)` from the post-page script,
following its control flow: start from the DOM tags, add the event cluster
(else its fingerprint cluster), the event type, the item cluster, push the
item's explicit tags verbatim (when slug and label are both truthy), then
dedupe by slug. -/
def collectTagsFromItem (item : Option ContentItem) (event : Option EventRecord)
    (domTags : Option (List Tag)) : List Tag :=
  let tags : List Tag := match domTags with | some l => l | none => []
  let tags := match event with
    | some e =>
      let tags :=
        if e.cluster ≠ "" then addTag tags e.cluster e.cluster
        else if e.fingerprintCluster ≠ "" then
          addTag tags e.fingerprintCluster e.fingerprintCluster
        else tags
      if e.event_type ≠ "" then addTag tags e.event_type e.event_type else tags
    | none => tags
  let tags := match item with
    | some it =>
      let tags := if it.cluster ≠ "" then addTag tags it.cluster it.cluster else tags
      tags ++ it.tags.filter (fun t => t.label != "" && t.slug != "")
    | none => tags
  dedupeTags tags

/-- Candidates contributed by the cross-referenced event, written as the
specification describes them: the event cluster, else the fingerprint
cluster, then the event type. -/
def eventTagCandidates (event : Option EventRecord) : List Tag :=
  match event with
  | none => []
  | some e =>
    (if e.cluster ≠ "" then tagCand e.cluster e.cluster
     else if e.fingerprintCluster ≠ "" then
       tagCand e.fingerprintCluster e.fingerprintCluster
     else []) ++
      (if e.event_type ≠ "" then tagCand e.event_type e.event_type else [])

/-- Candidates contributed by the item itself: its cluster, then its explicit
tag list passed through verbatim (entries with a falsy slug or label are
skipped). -/
def itemTagCandidates (item : Option ContentItem) : List Tag :=
  match item with
  | none => []
  | some it =>
    (if it.cluster ≠ "" then tagCand it.cluster it.cluster else []) ++
      it.tags.filter (fun t => t.label != "" && t.slug != "")

/-- The full candidate list in build order: DOM tags, event-derived
candidates, item-derived candidates. -/
def specTagCandidates (item : Option ContentItem) (event : Option EventRecord)
    (domTags : Option (List Tag)) : List Tag :=
  domTags.getD [] ++ eventTagCandidates event ++ itemTagCandidates item

/-- First tag with the given slug, the specification-side reading of
slug-deduplication. -/
def firstTagWith (s : String) : List Tag → Option Tag
  | [] => none
  | t :: rest => if t.slug = s then some t else firstTagWith s rest

/-! ## Cross-reference index (post-page script) -/

/-- Pointwise update of a string-keyed map, the model of `m[k] = v`. -/
def updMap {α : Type} (m : String → Option α) (k : String) (v : α) :
    String → Option α :=
  fun q => if q = k then some v else m q

/-- Fold a list into a map where an entry with a key always overwrites:
the model of an unconditional `map[key] = value` loop. -/
def lastIns {α : Type} (key : α → Option String) (l : List α) :
    String → Option α :=
  l.foldl
    (fun m x => match key x with | some k => updMap m k x | none => m)
    (fun _ => none)

/-- Fold a list into a map where an entry is stored only when its key is not
yet present: the model of an `if (!map[key]) map[key] = value` loop. -/
def firstIns {α : Type} (key : α → Option String) (l : List α) :
    String → Option α :=
  l.foldl
    (fun m x => match key x with
      | some k => match m k with | none => updMap m k x | some _ => m
      | none => m)
    (fun _ => none)

/-- The last element of the list carrying the key `k`. -/
def lastFind {α : Type} (key : α → Option String) (k : String) :
    List α → Option α
  | [] => none
  | x :: rest =>
    match lastFind key k rest with
    | some y => some y
    | none => if key x = some k then some x else none

/-- The first element of the list carrying the key `k`. -/
def firstFind {α : Type} (key : α → Option String) (k : String) :
    List α → Option α
  | [] => none
  | x :: rest => if key x = some k then some x else firstFind key k rest

/-- The uid key of an event (`if (event.uid)` guard). -/
def uidKey (e : EventRecord) : Option String :=
  if e.uid = "" then none else some e.uid

/-- The normalized-title key of an event (`if (event.title)` plus the
`if (key)` guard). -/
def titleKey (e : EventRecord) : Option String :=
  if e.title = "" then none
  else if normalizeTitle e.title = "" then none
  else some (normalizeTitle e.title)

/-- The two lookup tables built by `buildEventIndex`. -/
structure EventIndex where
  byUid : String → Option EventRecord
  byTitle : String → Option EventRecord

/-- `buildEventIndex(eventsPayload)` from the post-page script.  The single
`forEach` updates the two independent tables; they are modelled as two folds
over the same event list.  A payload without an `events` array yields empty
tables. -/
def buildEventIndex (payload : Option (List EventRecord)) : EventIndex :=
  match payload with
  | none => ⟨fun _ => none, fun _ => none⟩
  | some events => ⟨lastIns uidKey events, firstIns titleKey events⟩

/-- The uid-else-normalized-title event lookup the post-page load handler
performs for the current item. -/
def lookupEventForItem (idx : EventIndex) (item : Option ContentItem) :
    Option EventRecord :=
  let eventUid := match item with | some it => it.event_uid | none => ""
  match (if eventUid ≠ "" then idx.byUid eventUid else none) with
  | some e => some e
  | none =>
    match item with
    | some it => if it.title ≠ "" then idx.byTitle (normalizeTitle it.title) else none
    | none => none

/-! ## Resolver (data-path resolution) -/

/-- The browser facts the resolvers consult.  `locHref` / `scriptSrc` are
`some` exactly when the corresponding value exists and is truthy; `newURL b r`
models `new URL(r, b).toString()` with `none` for a thrown `TypeError`; `setV
u v` models `url.searchParams.set('v', v); url.toString()` (which cannot
throw). -/
structure ResolveEnv where
  locHref : Option String
  scriptSrc : Option String
  newURL : String → String → Option String
  setV : String → String → String

/-- The script-URL attempt of `resolveDataPath`, with the unchanged input as
the final fallback. -/
def resolveViaScript (env : ResolveEnv) (relativePath : String) : String :=
  match env.scriptSrc with
  | some src =>
    match env.newURL relativePath src with
    | some u => u
    | none => relativePath
  | none => relativePath

/-- `resolveDataPath` from the post-page and tag-archive scripts: falsy input
is returned as is; otherwise try the document location, then the script URL,
then return the input unchanged (warning once, not modelled). -/
def resolveDataPath (env : ResolveEnv) (relativePath : String) : String :=
  if relativePath = "" then relativePath
  else
    match env.locHref with
    | some h =>
      match env.newURL relativePath h with
      | some u => u
      | none => resolveViaScript env relativePath
    | none => resolveViaScript env relativePath

/-- The specification-side reading of the resolver contract: first successful
attempt out of (a) document location, (b) script URL, else the original
string. -/
def resolveDataPathSpec (env : ResolveEnv) (relativePath : String) : String :=
  if relativePath = "" then relativePath
  else
    ((env.locHref.bind (env.newURL relativePath)).orElse
      (fun _ => env.scriptSrc.bind (env.newURL relativePath))).getD relativePath

/-- The location attempt of `resolveArchiveUrl`, with the bare relative path
plus cache-bust parameter as the final fallback. -/
def resolveArchiveFromLocation (env : ResolveEnv) (cacheBust : String) : String :=
  match env.locHref with
  | some h =>
    match env.newURL ("../data/briefings_archive.json") h with
    | some u => env.setV u cacheBust
    | none => ("../data/briefings_archive.json?v=") ++ cacheBust
  | none => ("../data/briefings_archive.json?v=") ++ cacheBust

/-- `resolveArchiveUrl` from the archive script: it attempts the *script URL
first*, then the document location, then falls back to the bare relative
path with the cache-bust parameter appended. -/
def resolveArchiveUrl (env : ResolveEnv) (cacheBust : String) : String :=
  match env.scriptSrc with
  | some src =>
    match env.newURL ("../../data/briefings_archive.json") src with
    | some u => env.setV u cacheBust
    | none => resolveArchiveFromLocation env cacheBust
  | none => resolveArchiveFromLocation env cacheBust

/-- What `resolveArchiveUrl` would be if it attempted the document location
first, as the claim states the resolver order. -/
def resolveArchiveLocationFirst (env : ResolveEnv) (cacheBust : String) : String :=
  match env.locHref with
  | some h =>
    match env.newURL ("../data/briefings_archive.json") h with
    | some u => env.setV u cacheBust
    | none =>
      match env.scriptSrc with
      | some src =>
        match env.newURL ("../../data/briefings_archive.json") src with
        | some u => env.setV u cacheBust
        | none => ("../data/briefings_archive.json?v=") ++ cacheBust
      | none => ("../data/briefings_archive.json?v=") ++ cacheBust
  | none =>
    match env.scriptSrc with
    | some src =>
      match env.newURL ("../../data/briefings_archive.json") src with
      | some u => env.setV u cacheBust
      | none => ("../data/briefings_archive.json?v=") ++ cacheBust
    | none => ("../data/briefings_archive.json?v=") ++ cacheBust

/-- The script-first chain of `resolveArchiveUrl`, written as an option
chain. -/
def resolveArchiveUrlSpec (env : ResolveEnv) (cacheBust : String) : String :=
  match ((env.scriptSrc.bind (env.newURL ("../../data/briefings_archive.json"))).orElse
    (fun _ => env.locHref.bind (env.newURL ("../data/briefings_archive.json")))) with
  | some u => env.setV u cacheBust
  | none => ("../data/briefings_archive.json?v=") ++ cacheBust

/-- `path.lastIndexOf('/')`: the running scan with the current index and the
best match so far. -/
def lastIdxAux : List Char → Nat → Int → Int
  | [], _, acc => acc
  | c :: rest, i, acc => lastIdxAux rest (i + 1) (if c = '/' then (i : Int) else acc)

/-- `path.lastIndexOf('/')`: index of the last slash, `-1` when absent. -/
def lastSlashIdx (l : List Char) : Int :=
  lastIdxAux l 0 (-1)

/-- `s.indexOf('.') !== -1`. -/
def containsDot (s : String) : Bool :=
  s.data.any (fun c => c == '.')

/-- `resolveLocationBase` from the latest-feed script: ensure the pathname
ends in a directory (append a slash after an extensionless last segment,
else cut back to the last slash) and prepend the origin.  `origin` models
`loc.origin || loc.protocol + '//' + loc.host`. -/
def resolveLocationBase (origin pathname : String) : String :=
  let path := if pathname = "" then ("/") else pathname
  let path :=
    if path.data.getLast? = some '/' then path
    else
      let lastSlash := lastSlashIdx path.data
      let lastSegment :=
        if 0 ≤ lastSlash then String.mk (path.data.drop (lastSlash + 1).toNat) else path
      if lastSegment ≠ "" ∧ containsDot lastSegment = false then path ++ ("/")
      else String.mk (path.data.take (max 0 (lastSlash + 1)).toNat)
  origin ++ path

/-- The location attempt of `ensurePostsBase`: `resolveLocationBase()` when
the document location is usable (`loc` carries origin and pathname), `none`
when accessing it throws. -/
def postsBaseFromLocation (loc : Option (String × String)) : Option String :=
  match loc with
  | some pr => some (resolveLocationBase pr.1 pr.2)
  | none => none

/-- `ensurePostsBase` from the latest-feed script: reuse a previously
computed base, else resolve `../..` against the *script URL first*, else
derive a base from the document location, else `null`. -/
def ensurePostsBase (env : ResolveEnv) (loc : Option (String × String))
    (postsBase : Option String) : Option String :=
  match postsBase with
  | some b => some b
  | none =>
    match env.scriptSrc with
    | some src =>
      match env.newURL ("../..") src with
      | some u => some u
      | none => postsBaseFromLocation loc
    | none => postsBaseFromLocation loc

/-- `resolveDataUrl` from the latest-feed script: resolve the data path
against the base with the cache-bust parameter, else fall back to the bare
relative path with the cache-bust parameter appended. -/
def resolveDataUrl (env : ResolveEnv) (loc : Option (String × String))
    (postsBase : Option String) (cacheBust : String) : String :=
  match ensurePostsBase env loc postsBase with
  | some base =>
    match env.newURL ("data/latest_briefings.json") base with
    | some u => env.setV u cacheBust
    | none => ("data/latest_briefings.json?v=") ++ cacheBust
  | none => ("data/latest_briefings.json?v=") ++ cacheBust

/-- The cached-else-script-first-else-location chain of `ensurePostsBase`,
written as an option chain. -/
def ensurePostsBaseSpec (env : ResolveEnv) (loc : Option (String × String))
    (postsBase : Option String) : Option String :=
  postsBase.orElse (fun _ =>
    (env.scriptSrc.bind (env.newURL ("../.."))).orElse (fun _ =>
      loc.map (fun pr => resolveLocationBase pr.1 pr.2)))

/-- The specification-side reading of `resolveDataUrl`: the data path
resolved against the base when both exist, else the bare relative path with
the cache-bust parameter. -/
def resolveDataUrlSpec (env : ResolveEnv) (loc : Option (String × String))
    (postsBase : Option String) (cacheBust : String) : String :=
  match (ensurePostsBaseSpec env loc postsBase).bind
      (env.newURL ("data/latest_briefings.json")) with
  | some u => env.setV u cacheBust
  | none => ("data/latest_briefings.json?v=") ++ cacheBust

/-! ## Pagination controller (archive script) -/

/-- The user-visible status line, as an enumeration of the message strings
the archive script writes. -/
inductive ArchiveStatus where
  | loading
  | noMatches
  | preparing
  | allLoaded
  | showing (rendered total : Nat)
  | unavailable
deriving DecidableEq

/-- The module state of the archive script that `renderNextPage` touches:
the active filtered subset, the rendered counter, the cards appended to the
list container, the status line, the load-more button visibility and whether
the intersection observer is still connected. -/
structure ArchiveState where
  items : List ContentItem
  rendered : Nat
  listed : List ContentItem
  status : ArchiveStatus
  loadMoreHidden : Bool
  observerOn : Bool
deriving DecidableEq

/-- `PAGE_SIZE` from the archive script. -/
def PAGE_SIZE : Nat := 12

/-- `renderNextPage()` from the archive script. -/
def renderNextPage (s : ArchiveState) : ArchiveState :=
  if s.items.length = 0 then
    { s with status := ArchiveStatus.noMatches, loadMoreHidden := true, observerOn := false }
  else if s.items.length ≤ s.rendered then
    { s with status := ArchiveStatus.allLoaded, loadMoreHidden := true, observerOn := false }
  else
    let nextItems := (s.items.drop s.rendered).take PAGE_SIZE
    let listed := s.listed ++ nextItems
    let rendered := s.rendered + nextItems.length
    if s.items.length ≤ rendered then
      { s with
        listed := listed
        rendered := rendered
        status := ArchiveStatus.allLoaded
        loadMoreHidden := true
        observerOn := false }
    else
      { s with
        listed := listed
        rendered := rendered
        status := ArchiveStatus.showing rendered s.items.length
        loadMoreHidden := false }

/-! ## Post-page previous/next selection -/

/-- The scanning loop of `findArchiveItem`: index of the first item whose
lower-cased slug equals `lower`, `-1` when none does. -/
def findArchiveItemAux (lower : String) : List ContentItem → Nat → Int
  | [], _ => -1
  | it :: rest, i =>
    if jsLower it.slug = lower then (i : Int) else findArchiveItemAux lower rest (i + 1)

/-- `findArchiveItem(items, slug)` from the post-page script. -/
def findArchiveItem (items : List ContentItem) (slug : String) : Int :=
  findArchiveItemAux (jsLower slug) items 0

/-- The prev/next selection of the post-page load handler:
`prev = items[index + 1]` when it exists, `next = items[index - 1]` when
`index > 0`; nothing when the slug was not found. -/
def selectPrevNext (items : List ContentItem) (slug : String) :
    Option ContentItem × Option ContentItem :=
  let index := findArchiveItem items slug
  let prev :=
    if 0 ≤ index ∧ index + 1 < (items.length : Int) then items[(index + 1).toNat]? else none
  let next := if 0 < index then items[(index - 1).toNat]? else none
  (prev, next)

/-- Index of the first entry whose lower-cased slug equals `lower`. -/
def firstSlugIdx (lower : String) : List ContentItem → Option Nat
  | [] => none
  | it :: rest =>
    if jsLower it.slug = lower then some 0 else (firstSlugIdx lower rest).map (· + 1)

/-- The specification-side reading: locate the first case-insensitive slug
match, previous briefing = the entry immediately after it in array order,
next briefing = the entry immediately before it. -/
def specPrevNext (items : List ContentItem) (slug : String) :
    Option ContentItem × Option ContentItem :=
  match firstSlugIdx (jsLower slug) items with
  | none => (none, none)
  | some i => (items[i + 1]?, if i = 0 then none else items[i - 1]?)

/-! ## Source list normalization (post-page script) -/

/-- Parsed, canonicalized components of an absolute URL, the model of the
browser `URL` object for the inputs the source handles (absolute URLs with
scheme and host; userinfo is not modelled). -/
structure URLParts where
  scheme : List Char
  host : List Char
  port : List Char
  path : List Char
  query : List Char
deriving DecidableEq

/-- Scan for the `://` separator, accumulating the scheme in reverse. -/
def splitSchemeAux : List Char → List Char → Option (List Char × List Char)
  | acc, ':' :: '/' :: '/' :: rest => some (acc.reverse, rest)
  | acc, c :: rest => splitSchemeAux (c :: acc) rest
  | _, [] => none

/-- ASCII letters. -/
def isAlphaB (c : Char) : Bool :=
  (decide (65 ≤ c.toNat) && decide (c.toNat ≤ 90)) ||
    (decide (97 ≤ c.toNat) && decide (c.toNat ≤ 122))

/-- ASCII digits. -/
def isDigitB (c : Char) : Bool :=
  decide (48 ≤ c.toNat) && decide (c.toNat ≤ 57)

/-- Characters allowed in a URL scheme after the first. -/
def isSchemeChar (c : Char) : Bool :=
  isAlphaB c || isDigitB c || c == '+' || c == '.' || c == '-'

/-- A valid scheme: a letter followed by scheme characters. -/
def schemeOkB : List Char → Bool
  | [] => false
  | c :: rest => isAlphaB c && rest.all isSchemeChar

/-- Model of `new URL(s)` for absolute URLs: split scheme, authority, path,
query; canonicalize by lower-casing scheme and host and defaulting the path
to `/`.  `none` models the constructor throwing. -/
def parseURL (s : String) : Option URLParts :=
  match splitSchemeAux [] s.data with
  | none => none
  | some (scheme, rest) =>
    if schemeOkB scheme then
      let authority := rest.takeWhile (fun c => !(c == '/') && !(c == '?') && !(c == '#'))
      let tail0 := rest.dropWhile (fun c => !(c == '/') && !(c == '?') && !(c == '#'))
      let host := authority.takeWhile (fun c => !(c == ':'))
      let portPart := authority.dropWhile (fun c => !(c == ':'))
      let port := match portPart with | _ :: p => p | [] => []
      let path := tail0.takeWhile (fun c => !(c == '?') && !(c == '#'))
      let afterPath := tail0.dropWhile (fun c => !(c == '?') && !(c == '#'))
      let query :=
        match afterPath with
        | '?' :: q => q.takeWhile (fun c => !(c == '#'))
        | _ => []
      if host = [] then none
      else if !(port.all isDigitB) then none
      else
        some ⟨scheme.map jsLowerChar, host.map jsLowerChar, port,
          (if path = [] then ['/'] else path), query⟩
    else none

/-- The `replace(/\/$/, '')` pass: drop one trailing slash. -/
def stripTrailSlash (l : List Char) : List Char :=
  if l.getLast? = some '/' then l.dropLast else l

/-- `normalizeSourceUrl` from the post-page script: scheme, lower-cased
hostname, optional port, path without its trailing slash; the query never
enters the normalized form; unparsable input is returned trimmed. -/
def normalizeSourceUrl (url : String) : String :=
  if url = "" then ("")
  else
    match parseURL url with
    | some p =>
      let normalized := p.scheme ++ (("://").data) ++ p.host.map jsLowerChar
      let normalized := if p.port ≠ [] then normalized ++ [':'] ++ p.port else normalized
      let normalized :=
        if p.path ≠ [] ∧ p.path ≠ ['/'] then normalized ++ stripTrailSlash p.path
        else normalized
      String.mk normalized
    | none => String.mk (trimWs url.data)

/-- Strip one leading `www.` from a host. -/
def stripWww (host : List Char) : List Char :=
  match host with
  | 'w' :: 'w' :: 'w' :: '.' :: rest => rest
  | l => l

/-- `sourceLabelFromUrl` from the post-page script: the lower-cased hostname
with a leading `www.` removed, falling back to the input itself. -/
def sourceLabelFromUrl (url : String) : String :=
  match parseURL url with
  | some p =>
    let host := stripWww (p.host.map jsLowerChar)
    if host ≠ [] then String.mk host else url
  | none => url

/-- The seen-set dedup loop of `renderSources`: each kept entry is the raw
URL paired with the label computed from its normalized form. -/
def renderSourcesAux : List String → List String → List (String × String)
  | _, [] => []
  | seen, raw :: rest =>
    let normalized := normalizeSourceUrl raw
    if normalized = "" ∨ normalized ∈ seen then renderSourcesAux seen rest
    else (raw, sourceLabelFromUrl normalized) :: renderSourcesAux (normalized :: seen) rest

/-- The list of source entries `renderSources` renders. -/
def renderSourcesItems (sources : List String) : List (String × String) :=
  renderSourcesAux [] sources

/-- First raw source whose normalized form is `key`. -/
def firstSrcWith (key : String) : List String → Option String
  | [] => none
  | raw :: rest =>
    if normalizeSourceUrl raw = key then some raw else firstSrcWith key rest

/-- First rendered entry whose raw URL normalizes to `key`. -/
def firstPairWith (key : String) : List (String × String) → Option (String × String)
  | [] => none
  | pr :: rest =>
    if normalizeSourceUrl pr.fst = key then some pr else firstPairWith key rest

/-! ## Highlight rotator ingestion (hero-highlight script) -/

/-- A leaderboard risk entry, with the fields `ingestData` copies
(`risk.sources || []` and `risk.summary || ''` are identities under the
conventions above). -/
structure RiskEntry where
  id : String
  name : String
  score : Int
  phase : String
  cluster : String
  last_updated : String
  sources : List String
  summary : String
  slug : String
deriving DecidableEq

/-- The lower-cased-title key under which `enrichHighlights` indexes archive
entries (`if (!entry || !entry.title) return` guard). -/
def archiveTitleKey (it : ContentItem) : Option String :=
  if it.title = "" then none else some (jsLower it.title)

/-- The per-item enrichment step of `enrichHighlights`:
`summary: match.summary || item.summary, slug: match.slug || item.slug`. -/
def enrichOne (byTitle : String → Option ContentItem) (item : RiskEntry) : RiskEntry :=
  match byTitle (jsLower item.name) with
  | none => item
  | some m =>
    { item with
      summary := if m.summary ≠ "" then m.summary else item.summary
      slug := if m.slug ≠ "" then m.slug else item.slug }

/-- `enrichHighlights(items, archive)` from the hero-highlight script.  The
archive is indexed by lower-cased title with plain assignment, so a later
archive entry with the same title overwrites an earlier one. -/
def enrichHighlights (items : List RiskEntry) (archive : Option (List ContentItem)) :
    List RiskEntry :=
  match archive with
  | none => items
  | some arcItems => items.map (enrichOne (lastIns archiveTitleKey arcItems))

/-- The state-items part of `ingestData(payload, archive)`: nothing on an
invalid payload, else the first five risks enriched from the archive. -/
def ingestTop (payload : Option (List RiskEntry)) (archive : Option (List ContentItem)) :
    Option (List RiskEntry) :=
  match payload with
  | none => none
  | some risks => some (enrichHighlights (risks.take 5) archive)

/-- Specification-side enrichment of one risk: the *last* archive entry whose
lower-cased title equals the risk's lower-cased name supplies summary and
slug, each only when non-empty. -/
def specEnrichOne (arcItems : List ContentItem) (r : RiskEntry) : RiskEntry :=
  match lastFind archiveTitleKey (jsLower r.name) arcItems with
  | none => r
  | some m =>
    { r with
      summary := if m.summary ≠ "" then m.summary else r.summary
      slug := if m.slug ≠ "" then m.slug else r.slug }

/-- Specification-side `ingestTop`. -/
def specIngestTop (payload : Option (List RiskEntry)) (archive : Option (List ContentItem)) :
    Option (List RiskEntry) :=
  match payload with
  | none => none
  | some risks =>
    some ((risks.take 5).map (fun r =>
      match archive with
      | none => r
      | some arcItems => specEnrichOne arcItems r))

/-! ## Card renderers (escaping boundary) -/

/-- Boolean list-prefix test. -/
def isPrefixOfB : List Char → List Char → Bool
  | [], _ => true
  | _ :: _, [] => false
  | p :: ps, q :: qs => p == q && isPrefixOfB ps qs

/-- Boolean substring occurrence test. -/
def containsSub (pat : List Char) : List Char → Bool
  | [] => isPrefixOfB pat []
  | c :: rest => isPrefixOfB pat (c :: rest) || containsSub pat rest

/-- The card markup built by the latest-briefings diagnostics variant (the
third script embedded in `hero-highlight.js`): date, href, title and cluster
are interpolated raw, with no `escapeHtml` call. -/
def renderLatestDiagCard (href : String) (it : ContentItem) : String :=
  ("<article class=\"post-card\">") ++
    ("<span class=\"post-card__date\">") ++ it.as_of ++ ("</span>") ++
    ("<h3><a href=\"") ++ href ++ ("\">") ++ it.title ++ ("</a></h3>") ++
    ("<ul class=\"tag-list\"><li class=\"tag\">") ++ it.cluster ++ ("</li></ul>") ++
    ("<a class=\"post-card__cta\" href=\"") ++ href ++ ("\">Read the signal</a>") ++
    ("</article>")

/-! ## Lemmas: overwrite / keep-first map folds -/

theorem lastIns_go {α : Type} (key : α → Option String) (l : List α)
    (init : String → Option α) (k : String) :
    (l.foldl (fun m x => match key x with | some k2 => updMap m k2 x | none => m) init) k
      = match lastFind key k l with | some y => some y | none => init k := by
  induction l generalizing init with
  | nil => simp [lastFind]
  | cons x rest ih =>
    simp only [List.foldl_cons, lastFind]
    rw [ih]
    cases hr : lastFind key k rest with
    | some y => simp
    | none =>
      cases hx : key x with
      | none => simp
      | some k2 =>
        by_cases hk : k2 = k
        · rw [hk]; simp [updMap]
        · have hk2 : ¬ k = k2 := fun h => hk (Eq.symm h)
          simp [updMap, hk, hk2]

theorem lastIns_eq {α : Type} (key : α → Option String) (l : List α) (k : String) :
    lastIns key l k = lastFind key k l := by
  unfold lastIns
  rw [lastIns_go]
  cases lastFind key k l <;> rfl

theorem firstIns_go {α : Type} (key : α → Option String) (l : List α)
    (init : String → Option α) (k : String) :
    (l.foldl (fun m x => match key x with
      | some k2 => match m k2 with | none => updMap m k2 x | some _ => m
      | none => m) init) k
      = match init k with | some v => some v | none => firstFind key k l := by
  induction l generalizing init with
  | nil => cases hik : init k <;> simp [hik, firstFind]
  | cons x rest ih =>
    simp only [List.foldl_cons, firstFind]
    rw [ih]
    cases hx : key x with
    | none =>
      cases hik : init k <;> simp [hik, hx]
    | some k2 =>
      by_cases hk : k2 = k
      · rw [hk] at hx ⊢
        cases hik : init k with
        | some v => simp [hik, hx]
        | none => simp [hik, hx, updMap]
      · have hk2 : ¬ k = k2 := fun h => hk (Eq.symm h)
        cases hik2 : init k2 with
        | some v => simp [hik2, hx, hk]
        | none =>
          cases hik : init k <;>
            simp [hik, hik2, hx, updMap, hk, hk2]

theorem firstIns_eq {α : Type} (key : α → Option String) (l : List α) (k : String) :
    firstIns key l k = firstFind key k l := by
  unfold firstIns
  rw [firstIns_go]

/-! ## Lemmas: slug deduplication -/

theorem dedupeTagsAux_subset {seen : List String} {l : List Tag} {t : Tag}
    (h : t ∈ dedupeTagsAux seen l) : t ∈ l := by
  induction l generalizing seen with
  | nil => simp [dedupeTagsAux] at h
  | cons u rest ih =>
    rw [dedupeTagsAux] at h
    split at h
    · exact List.mem_cons_of_mem u (ih h)
    · rcases List.mem_cons.mp h with h1 | h2
      · exact h1 ▸ List.mem_cons_self u rest
      · exact List.mem_cons_of_mem u (ih h2)

theorem dedupeTagsAux_slug_ok {seen : List String} {l : List Tag} {t : Tag}
    (h : t ∈ dedupeTagsAux seen l) : t.slug ≠ "" ∧ t.slug ∉ seen := by
  induction l generalizing seen with
  | nil => simp [dedupeTagsAux] at h
  | cons u rest ih =>
    rw [dedupeTagsAux] at h
    split at h
    · exact ih h
    · rename_i hcond
      push_neg at hcond
      rcases List.mem_cons.mp h with h1 | h2
      · exact h1 ▸ ⟨hcond.1, hcond.2⟩
      · have := ih h2
        exact ⟨this.1, fun hs => this.2 (List.mem_cons_of_mem _ hs)⟩

theorem dedupeTagsAux_nodup (seen : List String) (l : List Tag) :
    ((dedupeTagsAux seen l).map Tag.slug).Nodup := by
  induction l generalizing seen with
  | nil => simp [dedupeTagsAux]
  | cons u rest ih =>
    rw [dedupeTagsAux]
    split
    · exact ih seen
    · simp only [List.map_cons, List.nodup_cons]
      refine ⟨?_, ih (u.slug :: seen)⟩
      intro hmem
      rcases List.mem_map.mp hmem with ⟨t, ht, hts⟩
      exact (dedupeTagsAux_slug_ok ht).2 (hts ▸ List.mem_cons_self u.slug seen)

theorem firstTagWith_dedupeTagsAux {s : String} (hs : s ≠ "") :
    ∀ (seen : List String) (l : List Tag), s ∉ seen →
      firstTagWith s (dedupeTagsAux seen l) = firstTagWith s l := by
  intro seen l
  induction l generalizing seen with
  | nil => intro _; rfl
  | cons u rest ih =>
    intro hseen
    rw [dedupeTagsAux, firstTagWith]
    split
    · rename_i hcond
      have hus : u.slug ≠ s := by
        rcases hcond with h1 | h2
        · exact fun h => hs (h ▸ h1)
        · exact fun h => hseen (h ▸ h2)
      rw [if_neg hus]
      exact ih seen hseen
    · rw [firstTagWith]
      by_cases hus : u.slug = s
      · rw [if_pos hus, if_pos hus]
      · rw [if_neg hus, if_neg hus]
        exact ih (u.slug :: seen) (by
          intro hmem
          rcases List.mem_cons.mp hmem with h1 | h2
          · exact hus (Eq.symm h1)
          · exact hseen h2)

theorem firstTagWith_dedupeTags {s : String} (hs : s ≠ "") (l : List Tag) :
    firstTagWith s (dedupeTags l) = firstTagWith s l :=
  firstTagWith_dedupeTagsAux hs [] l (by simp)

/-- The source-side accumulation equals the specification-side candidate
concatenation, deduplicated. -/
theorem collectTagsFromItem_eq (item : Option ContentItem) (event : Option EventRecord)
    (domTags : Option (List Tag)) :
    collectTagsFromItem item event domTags =
      dedupeTags (specTagCandidates item event domTags) := by
  unfold collectTagsFromItem specTagCandidates eventTagCandidates itemTagCandidates
  cases domTags <;> cases event <;> cases item <;>
    simp only [Option.getD] <;>
    (try split_ifs) <;>
    simp [addTag, List.append_assoc]

/-! ## Lemmas: non-empty labels and slugs -/

theorem mem_ite_list {P : Prop} [Decidable P] {l1 l2 : List Tag} {t : Tag}
    (h : t ∈ (if P then l1 else l2)) : t ∈ l1 ∨ t ∈ l2 := by
  split at h
  · exact Or.inl h
  · exact Or.inr h

theorem tagCand_mem {a b : String} {t : Tag} (h : t ∈ tagCand a b) :
    t.label ≠ "" ∧ t.slug ≠ "" := by
  simp only [tagCand] at h
  generalize hsl : slugify (if b = "" then normalizeLabel a else b) = sl at h
  split at h
  · simp at h
  · rename_i hcond
    push_neg at hcond
    rcases List.mem_singleton.mp h with rfl
    exact ⟨hcond.2, hcond.1⟩

theorem eventTagCandidates_mem {e : Option EventRecord} {t : Tag}
    (h : t ∈ eventTagCandidates e) : t.label ≠ "" ∧ t.slug ≠ "" := by
  cases e with
  | none => simp [eventTagCandidates] at h
  | some ev =>
    unfold eventTagCandidates at h
    rcases List.mem_append.mp h with h1 | h2
    · rcases mem_ite_list h1 with h3 | h4
      · exact tagCand_mem h3
      · rcases mem_ite_list h4 with h5 | h6
        · exact tagCand_mem h5
        · simp at h6
    · rcases mem_ite_list h2 with h3 | h4
      · exact tagCand_mem h3
      · simp at h4

theorem itemTagCandidates_mem {i : Option ContentItem} {t : Tag}
    (h : t ∈ itemTagCandidates i) : t.label ≠ "" ∧ t.slug ≠ "" := by
  cases i with
  | none => simp [itemTagCandidates] at h
  | some it =>
    unfold itemTagCandidates at h
    rcases List.mem_append.mp h with h1 | h2
    · rcases mem_ite_list h1 with h3 | h4
      · exact tagCand_mem h3
      · simp at h4
    · have := (List.mem_filter.mp h2).2
      simp only [Bool.and_eq_true, bne_iff_ne, ne_eq] at this
      exact this

/-! ## Lemmas: source deduplication -/

theorem renderSourcesAux_entry_ok {seen : List String} {l : List String}
    {pr : String × String} (h : pr ∈ renderSourcesAux seen l) :
    normalizeSourceUrl pr.fst ≠ "" ∧ normalizeSourceUrl pr.fst ∉ seen ∧
      pr.snd = sourceLabelFromUrl (normalizeSourceUrl pr.fst) := by
  induction l generalizing seen with
  | nil => simp [renderSourcesAux] at h
  | cons raw rest ih =>
    rw [renderSourcesAux] at h
    split at h
    · exact ih h
    · rename_i hcond
      push_neg at hcond
      rcases List.mem_cons.mp h with h1 | h2
      · subst h1
        exact ⟨hcond.1, hcond.2, rfl⟩
      · have := ih h2
        exact ⟨this.1, fun hs => this.2.1 (List.mem_cons_of_mem _ hs), this.2.2⟩

theorem renderSourcesAux_nodup (seen : List String) (l : List String) :
    ((renderSourcesAux seen l).map (fun pr => normalizeSourceUrl pr.fst)).Nodup := by
  induction l generalizing seen with
  | nil => simp [renderSourcesAux]
  | cons raw rest ih =>
    rw [renderSourcesAux]
    split
    · exact ih seen
    · simp only [List.map_cons, List.nodup_cons]
      refine ⟨?_, ih (normalizeSourceUrl raw :: seen)⟩
      intro hmem
      rcases List.mem_map.mp hmem with ⟨pr, hpr, hkey⟩
      exact (renderSourcesAux_entry_ok hpr).2.1
        (hkey ▸ List.mem_cons_self (normalizeSourceUrl raw) seen)

theorem firstPairWith_renderSourcesAux {key : String} (hk : key ≠ "") :
    ∀ (seen : List String) (l : List String), key ∉ seen →
      firstPairWith key (renderSourcesAux seen l) =
        (firstSrcWith key l).map (fun raw => (raw, sourceLabelFromUrl key)) := by
  intro seen l
  induction l generalizing seen with
  | nil => intro _; rfl
  | cons raw rest ih =>
    intro hseen
    rw [renderSourcesAux, firstSrcWith]
    split
    · rename_i hcond
      have hne : normalizeSourceUrl raw ≠ key := by
        rcases hcond with h1 | h2
        · exact fun h => hk (h ▸ h1)
        · exact fun h => hseen (h ▸ h2)
      rw [if_neg hne]
      exact ih seen hseen
    · rw [firstPairWith]
      by_cases hck : normalizeSourceUrl raw = key
      · simp [hck]
      · rw [if_neg hck, if_neg hck]
        exact ih (normalizeSourceUrl raw :: seen) (by
          intro hmem
          rcases List.mem_cons.mp hmem with h1 | h2
          · exact hck (Eq.symm h1)
          · exact hseen h2)

/-! ## Lemmas: pagination -/

theorem renderNextPage_empty {s : ArchiveState} (h : s.items = []) :
    (renderNextPage s).rendered = s.rendered ∧ (renderNextPage s).listed = s.listed ∧
      (renderNextPage s).status = ArchiveStatus.noMatches ∧
      (renderNextPage s).loadMoreHidden = true := by
  simp [renderNextPage, h]

theorem renderNextPage_exhausted {s : ArchiveState} (hne : s.items ≠ [])
    (hle : s.items.length ≤ s.rendered) :
    (renderNextPage s).rendered = s.rendered ∧ (renderNextPage s).listed = s.listed ∧
      (renderNextPage s).status = ArchiveStatus.allLoaded ∧
      (renderNextPage s).loadMoreHidden = true := by
  have hlen : s.items.length ≠ 0 := by
    simpa [List.length_eq_zero] using hne
  simp [renderNextPage, hlen, hle]

theorem renderNextPage_advances {s : ArchiveState} (hlt : s.rendered < s.items.length) :
    (renderNextPage s).listed = s.listed ++ (s.items.drop s.rendered).take PAGE_SIZE ∧
      (renderNextPage s).rendered = s.rendered + min PAGE_SIZE (s.items.length - s.rendered) ∧
      s.rendered < (renderNextPage s).rendered := by
  have hlen : s.items.length ≠ 0 := by omega
  have hnle : ¬ s.items.length ≤ s.rendered := by omega
  have hk : ((s.items.drop s.rendered).take PAGE_SIZE).length =
      min PAGE_SIZE (s.items.length - s.rendered) := by
    simp [List.length_take, List.length_drop]
  have hmin : 0 < min PAGE_SIZE (s.items.length - s.rendered) := by
    have h12 : 0 < PAGE_SIZE := by decide
    omega
  unfold renderNextPage
  rw [if_neg hlen, if_neg hnle]
  simp only [hk]
  split <;> simp <;> omega

theorem renderNextPage_bounded {s : ArchiveState} (h : s.rendered ≤ s.items.length) :
    (renderNextPage s).rendered ≤ s.items.length := by
  by_cases h1 : s.items.length = 0
  · simp [renderNextPage, h1]; omega
  · by_cases h2 : s.items.length ≤ s.rendered
    · simp [renderNextPage, h1, h2]; omega
    · have hk : ((s.items.drop s.rendered).take PAGE_SIZE).length =
          min PAGE_SIZE (s.items.length - s.rendered) := by
        simp [List.length_take, List.length_drop]
      unfold renderNextPage
      rw [if_neg h1, if_neg h2]
      simp only [hk]
      split <;> simp <;> omega

/-! ## Lemmas: previous/next selection -/

theorem findArchiveItemAux_eq (lower : String) (l : List ContentItem) :
    ∀ i : Nat, findArchiveItemAux lower l i =
      (match firstSlugIdx lower l with
        | none => (-1 : Int)
        | some j => ((i + j : Nat) : Int)) := by
  induction l with
  | nil => intro i; rfl
  | cons it rest ih =>
    intro i
    rw [findArchiveItemAux, firstSlugIdx]
    by_cases h : jsLower it.slug = lower
    · simp [h]
    · rw [if_neg h, if_neg h, ih (i + 1)]
      cases hj : firstSlugIdx lower rest with
      | none => simp
      | some j =>
        have : i + 1 + j = i + (j + 1) := by omega
        simp [this]

theorem selectPrevNext_eq (items : List ContentItem) (slug : String) :
    selectPrevNext items slug = specPrevNext items slug := by
  unfold selectPrevNext specPrevNext findArchiveItem
  rw [findArchiveItemAux_eq]
  cases hj : firstSlugIdx (jsLower slug) items with
  | none => simp
  | some j =>
    simp only [Nat.zero_add]
    have hcast1 : ((j : Int) + 1).toNat = j + 1 := by omega
    have hcast2 : ((j : Int) - 1).toNat = j - 1 := by omega
    rw [hcast1, hcast2, Prod.mk.injEq]
    constructor
    · by_cases hb : (j : Int) + 1 < (items.length : Int)
      · rw [if_pos ⟨Int.natCast_nonneg j, hb⟩]
      · rw [if_neg (by intro hc; exact hb hc.2)]
        have : items.length ≤ j + 1 := by omega
        rw [List.getElem?_eq_none this]
    · by_cases h0 : j = 0
      · rw [if_pos h0, if_neg (by omega)]
      · rw [if_neg h0, if_pos (by omega)]

/-! ## Lemmas: resolver -/

theorem resolveViaScript_eq (env : ResolveEnv) (rel : String) :
    resolveViaScript env rel = (env.scriptSrc.bind (env.newURL rel)).getD rel := by
  unfold resolveViaScript
  cases hs : env.scriptSrc with
  | none => rfl
  | some src => cases hu : env.newURL rel src <;> simp [hu]

theorem resolveDataPath_eq (env : ResolveEnv) (rel : String) :
    resolveDataPath env rel = resolveDataPathSpec env rel := by
  unfold resolveDataPath resolveDataPathSpec
  by_cases h : rel = ""
  · simp [h]
  · rw [if_neg h, if_neg h]
    cases hl : env.locHref with
    | none => rw [resolveViaScript_eq]; simp [Option.orElse]
    | some base =>
      cases hu : env.newURL rel base with
      | some u => simp [hu, Option.orElse]
      | none => rw [resolveViaScript_eq]; simp [hu, Option.orElse]

theorem resolveArchiveFromLocation_eq (env : ResolveEnv) (cb : String) :
    resolveArchiveFromLocation env cb =
      (match env.locHref.bind (env.newURL ("../data/briefings_archive.json")) with
        | some u => env.setV u cb
        | none => ("../data/briefings_archive.json?v=") ++ cb) := by
  unfold resolveArchiveFromLocation
  cases hl : env.locHref with
  | none => rfl
  | some base =>
    cases hu : env.newURL ("../data/briefings_archive.json") base <;> simp [hu]

theorem resolveArchiveUrl_eq (env : ResolveEnv) (cb : String) :
    resolveArchiveUrl env cb = resolveArchiveUrlSpec env cb := by
  unfold resolveArchiveUrl resolveArchiveUrlSpec
  cases hs : env.scriptSrc with
  | none =>
    rw [resolveArchiveFromLocation_eq]
    simp [Option.orElse]
  | some src =>
    cases hu : env.newURL ("../../data/briefings_archive.json") src with
    | some u => simp [hu, Option.orElse]
    | none =>
      rw [resolveArchiveFromLocation_eq]
      simp [hu, Option.orElse]

theorem postsBaseFromLocation_eq (loc : Option (String × String)) :
    postsBaseFromLocation loc = loc.map (fun pr => resolveLocationBase pr.1 pr.2) := by
  cases loc <;> rfl

theorem ensurePostsBase_eq (env : ResolveEnv) (loc : Option (String × String))
    (postsBase : Option String) :
    ensurePostsBase env loc postsBase = ensurePostsBaseSpec env loc postsBase := by
  unfold ensurePostsBase ensurePostsBaseSpec
  cases postsBase with
  | some b => simp [Option.orElse]
  | none =>
    cases hs : env.scriptSrc with
    | none => simp [Option.orElse, postsBaseFromLocation_eq]
    | some src =>
      cases hu : env.newURL ("../..") src with
      | some u => simp [hu, Option.orElse]
      | none => simp [hu, Option.orElse, postsBaseFromLocation_eq]

theorem resolveDataUrl_eq (env : ResolveEnv) (loc : Option (String × String))
    (postsBase : Option String) (cb : String) :
    resolveDataUrl env loc postsBase cb = resolveDataUrlSpec env loc postsBase cb := by
  unfold resolveDataUrl resolveDataUrlSpec
  rw [← ensurePostsBase_eq]
  cases hb : ensurePostsBase env loc postsBase with
  | none => rfl
  | some base =>
    cases hu : env.newURL ("data/latest_briefings.json") base <;> simp [hu]

/-! ## Lemmas: escaping -/

theorem not_mem_replaceChar_self {c : Char} {repl : List Char} (h : c ∉ repl) :
    ∀ l : List Char, c ∉ replaceChar c repl l := by
  intro l
  induction l with
  | nil => simp [replaceChar]
  | cons d rest ih =>
    rw [replaceChar]
    split
    · simp only [List.mem_append]
      exact fun hc => hc.elim h ih
    · rename_i hdc
      simp only [List.mem_cons]
      exact fun hc => hc.elim (fun he => hdc (Eq.symm he)) ih

theorem not_mem_replaceChar {e c : Char} {repl : List Char} (hrepl : e ∉ repl) :
    ∀ l : List Char, e ∉ l → e ∉ replaceChar c repl l := by
  intro l
  induction l with
  | nil => simp [replaceChar]
  | cons d rest ih =>
    intro hl
    rw [replaceChar]
    have hd : e ≠ d := fun he => hl (he ▸ List.mem_cons_self d rest)
    have hrest : e ∉ rest := fun he => hl (List.mem_cons_of_mem d he)
    split
    · simp only [List.mem_append]
      exact fun hc => hc.elim hrepl (ih hrest)
    · simp only [List.mem_cons]
      exact fun hc => hc.elim hd (ih hrest)

theorem escapeHtml_no_specials (s : String) :
    '<' ∉ (escapeHtml s).data ∧ '>' ∉ (escapeHtml s).data ∧
      '\"' ∉ (escapeHtml s).data ∧ '\x27' ∉ (escapeHtml s).data := by
  show '<' ∉ escapeHtmlList s.data ∧ '>' ∉ escapeHtmlList s.data ∧
    '\"' ∉ escapeHtmlList s.data ∧ '\x27' ∉ escapeHtmlList s.data
  unfold escapeHtmlList
  refine ⟨?_, ?_, ?_, ?_⟩
  · apply not_mem_replaceChar (by decide)
    apply not_mem_replaceChar (by decide)
    apply not_mem_replaceChar (by decide)
    exact not_mem_replaceChar_self (by decide) _
  · apply not_mem_replaceChar (by decide)
    apply not_mem_replaceChar (by decide)
    exact not_mem_replaceChar_self (by decide) _
  · apply not_mem_replaceChar (by decide)
    exact not_mem_replaceChar_self (by decide) _
  · exact not_mem_replaceChar_self (by decide) _

/-! ## Lemmas: highlight ingestion -/

theorem enrichOne_eq (arcItems : List ContentItem) :
    enrichOne (lastIns archiveTitleKey arcItems) = specEnrichOne arcItems := by
  funext r
  unfold enrichOne specEnrichOne
  rw [lastIns_eq]

theorem ingestTop_eq (payload : Option (List RiskEntry))
    (archive : Option (List ContentItem)) :
    ingestTop payload archive = specIngestTop payload archive := by
  cases payload with
  | none => rfl
  | some rs =>
    cases archive with
    | none => simp [ingestTop, specIngestTop, enrichHighlights]
    | some arc =>
      simp only [ingestTop, specIngestTop, enrichHighlights]
      rw [enrichOne_eq]

/-! ## Lemmas: slugify idempotence -/

/-- Characters a finished slug may contain: lower-case alphanumerics and the
dash. -/
def ValidSlugChar (c : Char) : Prop :=
  isLowerAlnum c = true ∨ c = '-'

/-- No two adjacent dashes. -/
def DashChain (l : List Char) : Prop :=
  l.Chain' (fun a b => a ≠ '-' ∨ b ≠ '-')

theorem collapseRuns_eq_self {p : Char → Bool} {r : Char} {l : List Char}
    (h : ∀ c ∈ l, p c = false) : collapseRuns p r l = l := by
  induction l with
  | nil => rfl
  | cons a rest ih =>
    cases rest with
    | nil =>
      have ha := h a (List.mem_cons_self _ _)
      simp [collapseRuns, ha]
    | cons d rest2 =>
      have ha := h a (List.mem_cons_self _ _)
      rw [collapseRuns, if_neg (by simp [ha])]
      rw [ih (fun c hc => h c (List.mem_cons_of_mem _ hc))]

theorem mem_collapseRuns {p : Char → Bool} {r : Char} :
    ∀ {l : List Char} {c : Char}, c ∈ collapseRuns p r l → c = r ∨ (c ∈ l ∧ p c = false)
  | l, c => by
    induction l with
    | nil => intro h; simp [collapseRuns] at h
    | cons a rest ih =>
      intro h
      cases rest with
      | nil =>
        rw [collapseRuns] at h
        split at h
        · exact Or.inl (List.mem_singleton.mp h)
        · rename_i ha
          rcases List.mem_singleton.mp h with rfl
          exact Or.inr ⟨List.mem_cons_self _ _, by simpa using ha⟩
      | cons d rest2 =>
        rw [collapseRuns] at h
        split at h
        · split at h
          · rcases ih h with h1 | ⟨h2, h3⟩
            · exact Or.inl h1
            · exact Or.inr ⟨List.mem_cons_of_mem _ h2, h3⟩
          · rcases List.mem_cons.mp h with h1 | h2
            · exact Or.inl h1
            · rcases ih h2 with h3 | ⟨h4, h5⟩
              · exact Or.inl h3
              · exact Or.inr ⟨List.mem_cons_of_mem _ h4, h5⟩
        · rename_i ha
          rcases List.mem_cons.mp h with h1 | h2
          · exact Or.inr ⟨h1 ▸ List.mem_cons_self _ _, h1 ▸ (by simpa using ha)⟩
          · rcases ih h2 with h3 | ⟨h4, h5⟩
            · exact Or.inl h3
            · exact Or.inr ⟨List.mem_cons_of_mem _ h4, h5⟩

theorem collapseRuns_head {p : Char → Bool} {r : Char} {d : Char} (hd : p d = false)
    (rest : List Char) : (collapseRuns p r (d :: rest)).head? = some d := by
  cases rest with
  | nil => simp [collapseRuns, hd]
  | cons e rest2 => rw [collapseRuns, if_neg (by simp [hd])]; rfl

theorem chain_collapseRuns (p : Char → Bool) (r : Char) :
    ∀ l : List Char, (collapseRuns p r l).Chain' (fun a b => p a = false ∨ p b = false) := by
  intro l
  induction l with
  | nil => simp [collapseRuns]
  | cons a rest ih =>
    cases rest with
    | nil => rw [collapseRuns]; split <;> simp
    | cons d rest2 =>
      rw [collapseRuns]
      split
      · split
        · exact ih
        · rename_i hpd
          rw [List.chain'_cons']
          refine ⟨?_, ih⟩
          intro b hb
          rw [collapseRuns_head (by simpa using hpd) rest2] at hb
          simp only [Option.mem_def, Option.some.injEq] at hb
          exact Or.inr (hb ▸ (by simpa using hpd))
      · rename_i hpa
        rw [List.chain'_cons']
        refine ⟨?_, ih⟩
        intro b _
        exact Or.inl (by simpa using hpa)

theorem collapseRuns_eq_self_chain {p : Char → Bool} {r : Char}
    (hr : ∀ c, p c = true → c = r) {l : List Char}
    (hchain : l.Chain' (fun a b => p a = false ∨ p b = false)) :
    collapseRuns p r l = l := by
  induction l with
  | nil => rfl
  | cons a rest ih =>
    cases rest with
    | nil =>
      rw [collapseRuns]
      split
      · rename_i hpa; rw [hr a hpa]
      · rfl
    | cons d rest2 =>
      have hpair := List.chain'_cons.mp hchain
      rw [collapseRuns]
      split
      · rename_i hpa
        have hpd : p d = false := by
          rcases hpair.1 with h1 | h2
          · exact absurd hpa (by simp [h1])
          · exact h2
        rw [if_neg (by simp [hpd]), hr a hpa, ih hpair.2]
      · rw [ih hpair.2]

theorem dropWhile_eq_self_of {p : Char → Bool} {l : List Char}
    (h : ∀ c ∈ l, p c = false) : l.dropWhile p = l := by
  cases l with
  | nil => rfl
  | cons a rest =>
    rw [List.dropWhile_cons, if_neg (by simp [h a (List.mem_cons_self _ _)])]

theorem trimWs_eq_self {l : List Char} (h : ∀ c ∈ l, isWsChar c = false) :
    trimWs l = l := by
  unfold trimWs
  rw [dropWhile_eq_self_of h,
    dropWhile_eq_self_of (fun c hc => h c (List.mem_reverse.mp hc)),
    List.reverse_reverse]

theorem mem_trimWs {l : List Char} {c : Char} (h : c ∈ trimWs l) : c ∈ l := by
  unfold trimWs at h
  have h1 := List.mem_reverse.mp h
  have h2 := (List.dropWhile_sublist (l := (l.dropWhile isWsChar).reverse)
    (p := isWsChar)).mem h1
  have h3 := List.mem_reverse.mp h2
  exact (List.dropWhile_sublist (l := l) (p := isWsChar)).mem h3

theorem dropLeadDash_chain {l : List Char} (h : DashChain l) :
    DashChain (dropLeadDash l) := by
  cases l with
  | nil => exact h
  | cons c t =>
    rw [dropLeadDash]
    split
    · exact List.Chain'.tail h
    · exact h

theorem dropLeadDash_head {l : List Char} (h : DashChain l) :
    (dropLeadDash l).head? ≠ some '-' := by
  cases l with
  | nil => simp [dropLeadDash]
  | cons c t =>
    rw [dropLeadDash]
    split
    · rename_i hc
      cases t with
      | nil => simp
      | cons d t2 =>
        have hpair := (List.chain'_cons.mp h).1
        have hd : d ≠ '-' := by
          rcases hpair with h1 | h2
          · exact absurd hc h1
          · exact h2
        simp [hd]
    · rename_i hc
      simp [hc]

theorem dropLeadDash_getLast {l : List Char} (h : l.getLast? ≠ some '-') :
    (dropLeadDash l).getLast? ≠ some '-' := by
  cases l with
  | nil => simp [dropLeadDash]
  | cons c t =>
    rw [dropLeadDash]
    split
    · cases t with
      | nil => simp
      | cons d t2 =>
        rw [List.getLast?_cons_cons] at h
        exact h
    · exact h

theorem mem_dropLeadDash {l : List Char} {c : Char} (h : c ∈ dropLeadDash l) : c ∈ l := by
  cases l with
  | nil => simp [dropLeadDash] at h
  | cons a t =>
    rw [dropLeadDash] at h
    split at h
    · exact List.mem_cons_of_mem a h
    · exact h

theorem dropLeadDash_eq_self {l : List Char} (h : l.head? ≠ some '-') :
    dropLeadDash l = l := by
  cases l with
  | nil => rfl
  | cons c t =>
    rw [dropLeadDash, if_neg]
    intro hc
    exact h (by simp [hc])

theorem chain_reverse_dash {l : List Char} (h : DashChain l) : DashChain l.reverse := by
  unfold DashChain at *
  rw [List.chain'_reverse]
  exact h.imp (fun a b hab => hab.symm)

theorem stripEdgeDash_props {l : List Char} (h : DashChain l) :
    (∀ c ∈ stripEdgeDash l, c ∈ l) ∧ DashChain (stripEdgeDash l) ∧
      (stripEdgeDash l).head? ≠ some '-' ∧ (stripEdgeDash l).getLast? ≠ some '-' := by
  unfold stripEdgeDash
  have hmc : DashChain (dropLeadDash l) := dropLeadDash_chain h
  have hmh : (dropLeadDash l).head? ≠ some '-' := dropLeadDash_head h
  have hrc : DashChain (dropLeadDash l).reverse := chain_reverse_dash hmc
  have hm2c : DashChain (dropLeadDash (dropLeadDash l).reverse) := dropLeadDash_chain hrc
  have hm2h : (dropLeadDash (dropLeadDash l).reverse).head? ≠ some '-' :=
    dropLeadDash_head hrc
  have hm2l : (dropLeadDash (dropLeadDash l).reverse).getLast? ≠ some '-' := by
    apply dropLeadDash_getLast
    rw [List.getLast?_reverse]
    exact hmh
  refine ⟨?_, ?_, ?_, ?_⟩
  · intro c hc
    have h1 := List.mem_reverse.mp hc
    have h2 := mem_dropLeadDash h1
    exact mem_dropLeadDash (List.mem_reverse.mp h2)
  · exact chain_reverse_dash hm2c
  · rw [List.head?_reverse]; exact hm2l
  · rw [List.getLast?_reverse]; exact hm2h

theorem lowerAlnum_facts {c : Char} (h : isLowerAlnum c = true) :
    (97 ≤ c.toNat ∧ c.toNat ≤ 122) ∨ (48 ≤ c.toNat ∧ c.toNat ≤ 57) := by
  unfold isLowerAlnum at h
  simp only [Bool.or_eq_true, Bool.and_eq_true, decide_eq_true_eq] at h
  exact h

theorem jsLowerChar_valid {c : Char} (h : ValidSlugChar c) : jsLowerChar c = c := by
  rcases h with h | h
  · unfold jsLowerChar
    rw [if_neg]
    intro hcon
    rcases lowerAlnum_facts h with ⟨h1, h2⟩ | ⟨h1, h2⟩ <;> omega
  · rw [h]; decide

theorem valid_not_us {c : Char} (h : ValidSlugChar c) : (c == '_') = false := by
  rcases h with h | h
  · rw [beq_eq_false_iff_ne]
    intro hc
    rw [hc] at h
    exact absurd h (by decide)
  · rw [h]; decide

theorem wsChar_vals {c : Char} (h : isWsChar c = true) :
    c.toNat = 32 ∨ c.toNat = 9 ∨ c.toNat = 10 ∨ c.toNat = 13 ∨
      c.toNat = 11 ∨ c.toNat = 12 := by
  unfold isWsChar at h
  simp only [Bool.or_eq_true, beq_iff_eq] at h
  rcases h with ((((h | h) | h) | h) | h) | h <;> rw [h] <;> decide

theorem valid_not_ws {c : Char} (h : ValidSlugChar c) : isWsChar c = false := by
  by_cases hw : isWsChar c = true
  · exfalso
    rcases h with h | h
    · rcases lowerAlnum_facts h with ⟨h1, h2⟩ | ⟨h1, h2⟩ <;>
        rcases wsChar_vals hw with h3 | h3 | h3 | h3 | h3 | h3 <;> omega
    · rw [h] at hw; exact absurd hw (by decide)
  · simpa using hw

theorem valid_keep {c : Char} (h : ValidSlugChar c) : keepChar c = true := by
  unfold keepChar
  rcases h with h | h
  · simp [h]
  · rw [h]; decide

theorem keep_not_ws_valid {c : Char} (hk : keepChar c = true) (hw : isWsChar c = false) :
    ValidSlugChar c := by
  unfold keepChar at hk
  simp only [Bool.or_eq_true] at hk
  rcases hk with (h1 | h2) | h3
  · exact Or.inl h1
  · rw [hw] at h2; exact absurd h2 Bool.false_ne_true
  · exact Or.inr (by simpa using h3)

theorem slugCore_valid (l : List Char) :
    (∀ c ∈ slugCore l, ValidSlugChar c) ∧ DashChain (slugCore l) ∧
      (slugCore l).head? ≠ some '-' ∧ (slugCore l).getLast? ≠ some '-' := by
  unfold slugCore
  have h4 : ∀ c ∈ collapseRuns isWsChar '-' (trimWs (List.filter keepChar l)),
      ValidSlugChar c := by
    intro c hc
    rcases mem_collapseRuns hc with h1 | ⟨h2, h3⟩
    · exact Or.inr h1
    · exact keep_not_ws_valid (List.of_mem_filter (mem_trimWs h2)) h3
  have h5 : ∀ c ∈ collapseRuns (fun c => c == '-') '-'
      (collapseRuns isWsChar '-' (trimWs (List.filter keepChar l))), ValidSlugChar c := by
    intro c hc
    rcases mem_collapseRuns hc with h1 | ⟨h2, _⟩
    · exact Or.inr h1
    · exact h4 c h2
  have hchain5 : DashChain (collapseRuns (fun c => c == '-') '-'
      (collapseRuns isWsChar '-' (trimWs (List.filter keepChar l)))) := by
    have hb := chain_collapseRuns (fun c => c == '-') '-'
      (collapseRuns isWsChar '-' (trimWs (List.filter keepChar l)))
    exact hb.imp (fun a b hab =>
      hab.imp (fun h => by simpa using h) (fun h => by simpa using h))
  obtain ⟨hmem, hchain, hhead, hlast⟩ := stripEdgeDash_props hchain5
  exact ⟨fun c hc => h5 c (hmem c hc), hchain, hhead, hlast⟩

theorem slugCore_eq_self {l : List Char} (hv : ∀ c ∈ l, ValidSlugChar c)
    (hchain : DashChain l) (hhead : l.head? ≠ some '-')
    (hlast : l.getLast? ≠ some '-') : slugCore l = l := by
  unfold slugCore
  rw [List.filter_eq_self.mpr (fun c hc => valid_keep (hv c hc))]
  rw [trimWs_eq_self (fun c hc => valid_not_ws (hv c hc))]
  rw [collapseRuns_eq_self (fun c hc => valid_not_ws (hv c hc))]
  rw [collapseRuns_eq_self_chain (fun c hc => by simpa using hc)
    (hchain.imp (fun a b hab =>
      hab.imp (fun h => beq_eq_false_iff_ne.mpr h) (fun h => beq_eq_false_iff_ne.mpr h)))]
  unfold stripEdgeDash
  rw [dropLeadDash_eq_self hhead]
  rw [dropLeadDash_eq_self (by rw [List.head?_reverse]; exact hlast)]
  exact List.reverse_reverse l

theorem map_eq_self_of {f : Char → Char} {l : List Char} (h : ∀ c ∈ l, f c = c) :
    l.map f = l := by
  induction l with
  | nil => rfl
  | cons a rest ih =>
    rw [List.map_cons, h a (List.mem_cons_self _ _),
      ih (fun c hc => h c (List.mem_cons_of_mem _ hc))]

theorem slugifyList_props (l : List Char) :
    (∀ c ∈ slugifyList l, ValidSlugChar c) ∧ DashChain (slugifyList l) ∧
      (slugifyList l).head? ≠ some '-' ∧ (slugifyList l).getLast? ≠ some '-' := by
  unfold slugifyList
  exact slugCore_valid _

theorem slugifyList_idem (l : List Char) :
    slugifyList (slugifyList l) = slugifyList l := by
  obtain ⟨hv, hchain, hhead, hlast⟩ := slugifyList_props l
  conv_lhs => rw [slugifyList]
  rw [map_eq_self_of (fun c hc => jsLowerChar_valid (hv c hc))]
  rw [collapseRuns_eq_self (fun c hc => valid_not_us (hv c hc))]
  exact slugCore_eq_self hv hchain hhead hlast

theorem slugCoreLower_idem (l : List Char) :
    slugCore ((slugCore (l.map jsLowerChar)).map jsLowerChar) =
      slugCore (l.map jsLowerChar) := by
  obtain ⟨hv, hchain, hhead, hlast⟩ := slugCore_valid (l.map jsLowerChar)
  rw [map_eq_self_of (fun c hc => jsLowerChar_valid (hv c hc))]
  exact slugCore_eq_self hv hchain hhead hlast

theorem slugify_idem (s : String) : slugify (slugify s) = slugify s := by
  unfold slugify
  exact congrArg String.mk (slugifyList_idem s.data)

theorem slugifyTagArchive_idem (s : String) :
    slugifyTagArchive (slugifyTagArchive s) = slugifyTagArchive s := by
  unfold slugifyTagArchive
  exact congrArg String.mk (slugCoreLower_idem s.data)

/-! ## Concrete fixtures -/

/-- An archive item whose title carries HTML-special characters. -/
def itXss : ContentItem :=
  ⟨("x"), ("<img src=x onerror=alert(1)>"), (""), ("news"), ("2024-05-01"), [], ("")⟩

/-- A resolver environment in which both the document location and the script
URL are available and resolution against either succeeds. -/
def env0 : ResolveEnv :=
  ⟨some ("L"), some ("S"), fun rel base => some (base ++ ("/") ++ rel),
    fun u cb => u ++ ("?v=") ++ cb⟩

/-- The event of the title-fallback example. -/
def evFooBar : EventRecord := ⟨("1"), ("Foo Bar"), (""), (""), (""), []⟩

/-- An item titled with irregular spacing and case and no `event_uid`. -/
def itFooBar : ContentItem := ⟨("p"), ("foo   bar"), (""), (""), (""), [], ("")⟩

/-- The newest-first example catalogue. -/
def itC : ContentItem := ⟨("c"), ("C"), (""), (""), ("2024-05-03"), [], ("")⟩

/-- Middle entry of the example catalogue. -/
def itB : ContentItem := ⟨("b"), ("B"), (""), (""), ("2024-05-02"), [], ("")⟩

/-- Oldest entry of the example catalogue. -/
def itA : ContentItem := ⟨("a"), ("A"), (""), (""), ("2024-05-01"), [], ("")⟩

/-- An item carrying an explicit tag whose slug and label are not in
normalized form. -/
def itRawTag : ContentItem :=
  ⟨("x"), (""), (""), (""), (""), [⟨("X_Y"), ("ab_cd")⟩], ("")⟩

/-- An item and event exercising every tag source at once. -/
def itFull : ContentItem :=
  ⟨("s"), ("T"), (""), ("shipping"), ("2024-05-01"), [⟨("extra"), ("Extra")⟩], ("e1")⟩

/-- An event with cluster and event type. -/
def evFull : EventRecord := ⟨("e1"), ("T"), ("SHIPPING"), ("supply_squeeze"), (""), []⟩

/-- An empty-subset pagination state. -/
def sEmpty : ArchiveState := ⟨[], 0, [], ArchiveStatus.loading, true, false⟩

/-- A one-item active subset with nothing rendered yet. -/
def sOne : ArchiveState := ⟨[itA], 0, [], ArchiveStatus.preparing, true, true⟩

/-- A leaderboard risk whose own summary is non-empty. -/
def r0 : RiskEntry := ⟨("id1"), ("A"), 50, ("watch"), (""), (""), [], ("orig"), ("")⟩

/-- An archive entry matching `r0` by lower-cased title, with an empty
summary and a non-empty slug. -/
def arc0 : ContentItem := ⟨("s"), ("a"), (""), (""), (""), [], ("")⟩

/-- What the code actually produces for `r0` against `arc0`. -/
def r0enriched : RiskEntry := ⟨("id1"), ("A"), 50, ("watch"), (""), (""), [], ("orig"), ("s")⟩

/-! ## Claim theorems -/

/-- C1: every card renderer escapes ampersand, angle brackets and quotes in
data-sourced strings before interpolation.  The shared `escapeHtml` indeed
leaves no unescaped `<`, `>`, `"` or `'` in its output, but the
latest-briefings diagnostics renderer embedded in `hero-highlight.js`
interpolates the item title (and date, cluster, href) raw, so its card
fragment contains the unescaped `<img` coming from data. -/
theorem C1_escaping_code_bug :
    containsSub (("<img").data) (renderLatestDiagCard ("posts/x.html") itXss).data = true ∧
    (∀ s : String, '<' ∉ (escapeHtml s).data ∧ '>' ∉ (escapeHtml s).data ∧
      '\"' ∉ (escapeHtml s).data ∧ '\x27' ∉ (escapeHtml s).data) ∧
    containsSub (("<img").data) (escapeHtml itXss.title).data = false :=
  ⟨by decide, escapeHtml_no_specials, by decide⟩

/-- C2 counterexample: with both bases available and resolving, the archive
resolver does not return what location-first resolution would return — it
resolves against the script URL first; the latest-feed resolver likewise
derives its base from the script URL although the document location is
usable. -/
theorem C2_counterexample :
    resolveArchiveUrl env0 ("1") = ("S/../../data/briefings_archive.json?v=1") ∧
    resolveArchiveLocationFirst env0 ("1") = ("L/../data/briefings_archive.json?v=1") ∧
    resolveArchiveUrl env0 ("1") ≠ resolveArchiveLocationFirst env0 ("1") ∧
    resolveDataUrl env0 (some (("https://loc"), ("/"))) none ("1") =
      ("S/../../data/latest_briefings.json?v=1") := by
  refine ⟨by decide, by decide, by decide, by decide⟩

/-- C2 amended: `resolveDataPath` attempts the document location first, then
the script URL, and returns the input unchanged when both fail, never
throwing.  The archive resolver attempts the *script URL first*, then the
location, then falls back to the bare relative path with the cache-bust
parameter.  The latest-feed resolver reuses a previously computed base, else
attempts the *script URL first*, else derives a base from the document
location, else has no base; its data URL falls back to the bare relative
path with the cache-bust parameter.  All three are total functions of the
environment. -/
theorem C2_resolver_contract (env : ResolveEnv) (loc : Option (String × String))
    (postsBase : Option String) (rel cb : String) :
    resolveDataPath env rel = resolveDataPathSpec env rel ∧
    resolveArchiveUrl env cb = resolveArchiveUrlSpec env cb ∧
    ensurePostsBase env loc postsBase = ensurePostsBaseSpec env loc postsBase ∧
    resolveDataUrl env loc postsBase cb = resolveDataUrlSpec env loc postsBase cb :=
  ⟨resolveDataPath_eq env rel, resolveArchiveUrl_eq env cb,
    ensurePostsBase_eq env loc postsBase, resolveDataUrl_eq env loc postsBase cb⟩

/-- C3: the cross-reference index retains exactly one event per uid (the
last occurrence wins) and one per normalized title (the first occurrence
wins); an invalid payload yields empty tables; and the title-fallback lookup
resolves an item titled `"foo   bar"` to the event `{uid: "1", title: "Foo
Bar"}`. -/
theorem C3_eventIndex (events : List EventRecord) (k : String) :
    (buildEventIndex (some events)).byUid k = lastFind uidKey k events ∧
    (buildEventIndex (some events)).byTitle k = firstFind titleKey k events ∧
    (buildEventIndex none).byUid k = none ∧
    (buildEventIndex none).byTitle k = none ∧
    lookupEventForItem (buildEventIndex (some [evFooBar])) (some itFooBar) = some evFooBar ∧
    evFooBar.uid = ("1") :=
  ⟨lastIns_eq uidKey events k, firstIns_eq titleKey events k, rfl, rfl, by decide, rfl⟩

/-- C4 counterexample: an explicit item tag is passed through verbatim, not
normalized — the emitted slug `"X_Y"` is not in slug form and the emitted
label `"ab_cd"` is not in label form, contradicting the claim that every
candidate is normalized. -/
theorem C4_counterexample :
    collectTagsFromItem (some itRawTag) none none = [⟨("X_Y"), ("ab_cd")⟩] ∧
    slugify ("X_Y") ≠ ("X_Y") ∧
    normalizeLabel ("ab_cd") ≠ ("ab_cd") := by
  refine ⟨by decide, by decide, by decide⟩

/-- C4 amended: candidates are assembled in the order DOM tags, event
cluster (else fingerprint cluster), event type, item cluster, explicit item
tags; the four event/item-cluster candidates are normalized with the raw
value as slug hint and dropped silently when empty, while DOM tags and
explicit item tags are passed through verbatim (explicit tags only when slug
and label are both non-empty); the earlier occurrence of a slug wins. -/
theorem C4_reconcile_order (item : Option ContentItem) (event : Option EventRecord)
    (domTags : Option (List Tag)) :
    collectTagsFromItem item event domTags =
      dedupeTags (specTagCandidates item event domTags) ∧
    (∀ s : String, s ≠ "" →
      firstTagWith s (collectTagsFromItem item event domTags) =
        firstTagWith s (specTagCandidates item event domTags)) := by
  refine ⟨collectTagsFromItem_eq item event domTags, fun s hs => ?_⟩
  rw [collectTagsFromItem_eq]
  exact firstTagWith_dedupeTags hs _

/-- C4 witness: the reconciliation of a fully-populated item, event and DOM
tag list, with the first-occurrence-wins lookup instantiated at the DOM
slug. -/
theorem C4_witness :
    collectTagsFromItem (some itFull) (some evFull) (some [⟨("dom"), ("Dom")⟩]) =
      dedupeTags (specTagCandidates (some itFull) (some evFull) (some [⟨("dom"), ("Dom")⟩])) ∧
    firstTagWith ("dom")
        (collectTagsFromItem (some itFull) (some evFull) (some [⟨("dom"), ("Dom")⟩])) =
      firstTagWith ("dom")
        (specTagCandidates (some itFull) (some evFull) (some [⟨("dom"), ("Dom")⟩])) := by
  have h := C4_reconcile_order (some itFull) (some evFull) (some [⟨("dom"), ("Dom")⟩])
  exact ⟨h.1, h.2 ("dom") (by decide)⟩

/-- C5 counterexample: a DOM-supplied tag with a non-empty slug and an empty
label survives reconciliation, so the claim that every entry of the result
has a non-empty label fails for arbitrary DOM-tag input. -/
theorem C5_counterexample :
    ¬ (∀ t ∈ collectTagsFromItem none none (some [Tag.mk ("x") ("")]), t.label ≠ ("")) := by
  decide

/-- C5 amended: the reconciled list never contains two entries with the same
slug and every entry has a non-empty slug; every entry also has a non-empty
label provided every DOM-supplied tag has one. -/
theorem C5_invariants (item : Option ContentItem) (event : Option EventRecord)
    (domTags : Option (List Tag)) :
    ((collectTagsFromItem item event domTags).map Tag.slug).Nodup ∧
    (∀ t ∈ collectTagsFromItem item event domTags, t.slug ≠ "") ∧
    ((∀ t ∈ domTags.getD [], t.label ≠ "") →
      ∀ t ∈ collectTagsFromItem item event domTags, t.label ≠ "") := by
  refine ⟨?_, ?_, ?_⟩
  · rw [collectTagsFromItem_eq]
    exact dedupeTagsAux_nodup [] _
  · intro t ht
    rw [collectTagsFromItem_eq] at ht
    exact (dedupeTagsAux_slug_ok ht).1
  · intro hd t ht
    rw [collectTagsFromItem_eq] at ht
    have hmem := dedupeTagsAux_subset ht
    unfold specTagCandidates at hmem
    rcases List.mem_append.mp hmem with h1 | h2
    · rcases List.mem_append.mp h1 with h3 | h4
      · exact hd t h3
      · exact (eventTagCandidates_mem h4).1
    · exact (itemTagCandidates_mem h2).1

/-- C5 witness: the invariants instantiated on a fully-populated input whose
DOM tag has a non-empty label. -/
theorem C5_witness :
    ((collectTagsFromItem (some itFull) (some evFull) (some [⟨("dom"), ("Dom")⟩])).map
      Tag.slug).Nodup ∧
    (∀ t ∈ collectTagsFromItem (some itFull) (some evFull) (some [⟨("dom"), ("Dom")⟩]),
      t.label ≠ ("")) := by
  have h := C5_invariants (some itFull) (some evFull) (some [⟨("dom"), ("Dom")⟩])
  exact ⟨h.1, h.2.2 (by decide)⟩

/-- C6: `renderNextPage` is a terminal no-op on an empty subset and once
`rendered` has reached the subset length; otherwise it appends exactly
`min(PAGE_SIZE, remaining)` items in subset order, strictly advancing
`rendered`, and `rendered` never exceeds the subset length. -/
theorem C6_renderNextPage (s : ArchiveState) :
    (s.items = [] →
      (renderNextPage s).rendered = s.rendered ∧ (renderNextPage s).listed = s.listed ∧
        (renderNextPage s).status = ArchiveStatus.noMatches ∧
        (renderNextPage s).loadMoreHidden = true) ∧
    (s.items ≠ [] → s.items.length ≤ s.rendered →
      (renderNextPage s).rendered = s.rendered ∧ (renderNextPage s).listed = s.listed ∧
        (renderNextPage s).status = ArchiveStatus.allLoaded ∧
        (renderNextPage s).loadMoreHidden = true) ∧
    (s.rendered < s.items.length →
      (renderNextPage s).listed = s.listed ++ (s.items.drop s.rendered).take PAGE_SIZE ∧
        (renderNextPage s).rendered =
          s.rendered + min PAGE_SIZE (s.items.length - s.rendered) ∧
        s.rendered < (renderNextPage s).rendered) ∧
    (s.rendered ≤ s.items.length → (renderNextPage s).rendered ≤ s.items.length) :=
  ⟨fun h => renderNextPage_empty h,
    fun hne hle => renderNextPage_exhausted hne hle,
    fun hlt => renderNextPage_advances hlt,
    fun hle => renderNextPage_bounded hle⟩

/-- C6 witness: the empty-subset no-op and a first page render on a one-item
subset. -/
theorem C6_witness :
    ((renderNextPage sEmpty).rendered = 0 ∧
      (renderNextPage sEmpty).status = ArchiveStatus.noMatches) ∧
    ((renderNextPage sOne).rendered = 0 + min PAGE_SIZE ([itA].length - 0) ∧
      0 < (renderNextPage sOne).rendered ∧
      (renderNextPage sOne).rendered ≤ [itA].length) := by
  have h1 := C6_renderNextPage sEmpty
  have h2 := C6_renderNextPage sOne
  have he := h1.1 (by decide)
  have ha := h2.2.2.1 (by decide)
  exact ⟨⟨he.1, he.2.2.1⟩, ⟨ha.2.1, ha.2.2, h2.2.2.2 (by decide)⟩⟩

/-- C7: prev/next selection agrees with the specification (first
case-insensitive slug match; previous = the entry after it in array order,
next = the entry before it; no match yields neither), and on the example
catalogue with current slug `"b"`, prev is `"a"` and next is `"c"`. -/
theorem C7_prevNext (items : List ContentItem) (slug : String) :
    selectPrevNext items slug = specPrevNext items slug ∧
    selectPrevNext [itC, itB, itA] ("b") = (some itA, some itC) ∧
    selectPrevNext [itC, itB, itA] ("zz") = (none, none) :=
  ⟨selectPrevNext_eq items slug, by decide, by decide⟩

/-- C8: source lists are deduplicated by the normalized
scheme://host[:port]/path form with trailing slash and query stripped
(`https://Example.com/a/` and `https://example.com/a` collide and the first
raw URL is kept); normalized keys in the output are pairwise distinct, the
kept representative of a key is the first source normalizing to it, and each
displayed label is computed from the normalized form (lower-cased host
without a leading `www.`). -/
theorem C8_sources (sources : List String) (key : String) :
    normalizeSourceUrl ("https://Example.com/a/") = ("https://example.com/a") ∧
    normalizeSourceUrl ("https://example.com/a?b=c&d=e") = ("https://example.com/a") ∧
    renderSourcesItems [("https://Example.com/a/"), ("https://example.com/a")] =
      [(("https://Example.com/a/"), ("example.com"))] ∧
    sourceLabelFromUrl ("https://www.Example.com/a") = ("example.com") ∧
    ((renderSourcesItems sources).map (fun pr => normalizeSourceUrl pr.fst)).Nodup ∧
    (key ≠ "" →
      firstPairWith key (renderSourcesItems sources) =
        (firstSrcWith key sources).map (fun raw => (raw, sourceLabelFromUrl key))) ∧
    (∀ pr ∈ renderSourcesItems sources,
      pr.snd = sourceLabelFromUrl (normalizeSourceUrl pr.fst)) := by
  refine ⟨by decide, by decide, by decide, by decide, ?_, ?_, ?_⟩
  · exact renderSourcesAux_nodup [] sources
  · intro hk
    exact firstPairWith_renderSourcesAux hk [] sources (by simp)
  · intro pr hpr
    exact (renderSourcesAux_entry_ok hpr).2.2

/-- C8 witness: the first-occurrence lookup instantiated at the duplicated
normalized key of the example. -/
theorem C8_witness :
    firstPairWith ("https://example.com/a")
        (renderSourcesItems [("https://Example.com/a/"), ("https://example.com/a")]) =
      some (("https://Example.com/a/"), ("example.com")) := by
  have h := (C8_sources [("https://Example.com/a/"), ("https://example.com/a")]
    ("https://example.com/a")).2.2.2.2.2.1 (by decide)
  rw [h]
  decide

/-- C9: both `slugify` variants are idempotent. -/
theorem C9_slugify_idempotent (s : String) :
    slugify (slugify s) = slugify s ∧
    slugifyTagArchive (slugifyTagArchive s) = slugifyTagArchive s :=
  ⟨slugify_idem s, slugifyTagArchive_idem s⟩

/-- C10 counterexample: an archive entry matches the risk by lower-cased
title but carries an empty summary; the code keeps the risk's own summary
(`match.summary || item.summary`) instead of replacing it with the matched
entry's summary as the claim states. -/
theorem C10_counterexample :
    ingestTop (some [r0]) (some [arc0]) = some [r0enriched] ∧
    jsLower arc0.title = jsLower r0.name ∧
    arc0.summary = ("") ∧ r0enriched.summary = ("orig") ∧
    r0enriched.summary ≠ arc0.summary := by
  refine ⟨by decide, by decide, rfl, rfl, by decide⟩

/-- C10 amended: the displayed subset is exactly the first five risks in
array order (all when fewer); each entry's summary and slug are replaced by
those of the *last* archive item whose lower-cased title equals the risk's
lower-cased name, each field only when the archive value is non-empty, and
are left unchanged otherwise. -/
theorem C10_highlights (payload : Option (List RiskEntry))
    (archive : Option (List ContentItem)) (rs : List RiskEntry) :
    ingestTop payload archive = specIngestTop payload archive ∧
    (ingestTop (some rs) archive).map List.length = some (min 5 rs.length) ∧
    ingestTop none archive = none := by
  refine ⟨ingestTop_eq payload archive, ?_, rfl⟩
  cases archive <;> simp [ingestTop, enrichHighlights, List.length_take]

/-- C1 witness: the escaping fact of the shared `escapeHtml` instantiated on
a concrete input containing an angle bracket. -/
theorem C1_witness : '<' ∉ (escapeHtml ("<b>")).data ∧ '>' ∉ (escapeHtml ("<b>")).data :=
  ⟨(C1_escaping_code_bug.2.1 ("<b>")).1, (C1_escaping_code_bug.2.1 ("<b>")).2.1⟩
